import Mathlib

/-
Shallow embedding of webviz_subsurface/_abbreviations/reservoir_simulation.py.

Python strings are modelled as lists of characters.  Python dicts are modelled
as association lists with first-match lookup; a failing dict subscript
(KeyError) is modelled as Except.error ().  The two reference tables
(SIMULATION_VECTOR_TERMINOLOGY and RESERVOIR_SIMULATION_UNIT_TERMINOLOGY) are
loaded from JSON data files that are external to the module code, so the
functions below take the tables as explicit parameters with the documented
schema: the vector table maps a base name to a JSON object with string fields
(among them "description" and "type"), the unit table maps a unit-set name to a
mapping raw unit to friendly unit, and smry_meta carries a per-vector boolean
is_historical flag.
-/

abbrev Str := List Char

/-- Python d[k] on a string-keyed dict: first-match association lookup; a
missing key (KeyError) is Except.error (). -/
def dictGet {α : Type} : List (Str × α) → Str → Except Unit α
  | [], _ => Except.error ()
  | (k, v) :: rest, key => if k = key then Except.ok v else dictGet rest key

/-- Python d.get(k, dflt): lookup with a default instead of KeyError. -/
def dictGetD {α : Type} (d : List (Str × α)) (key : Str) (dflt : α) : α :=
  match dictGet d key with
  | Except.ok v => v
  | Except.error _ => dflt

/-- Whether an Except value is ok. -/
def isOkE {α : Type} : Except Unit α → Bool
  | Except.ok _ => true
  | Except.error _ => false

/-- Python s.split(sep, 1): the part before the first sep, and the rest after
it (none when sep does not occur). -/
def splitOnce (sep : Char) : Str → Str × Option Str
  | [] => ([], none)
  | c :: cs =>
    if c = sep then ([], some cs)
    else
      let r := splitOnce sep cs
      (c :: r.1, r.2)

/-- Python ":".join(parts) for the one- or two-element part lists produced by
split(":", 1). -/
def joinColon (a : Str) : Option Str → Str
  | none => a
  | some rest => a ++ ':' :: rest

/-- Python s.rstrip("_"): remove all trailing underscores. -/
def rstripUnderscore (s : Str) : Str :=
  (s.reverse.dropWhile (fun c => c = '_')).reverse

/-- Python s.replace("_", " "). -/
def replaceUnderscoreBySpace (s : Str) : Str :=
  s.map (fun c => if c = '_' then ' ' else c)

/-- Python s.endswith(c) for a single character c. -/
def endsWithChar (c : Char) (s : Str) : Bool :=
  match s.getLast? with
  | some d => d == c
  | none => false

/-- Python s.startswith(("F", "G", "W")). -/
def startsFGW (s : Str) : Bool :=
  match s with
  | [] => false
  | c :: _ => c == 'F' || c == 'G' || c == 'W'

/-- A JSON object with string values, such as one vector-metadata entry. -/
abbrev Entry := List (Str × Str)

/-- SIMULATION_VECTOR_TERMINOLOGY: base name to metadata entry. -/
abbrev VectorTable := List (Str × Entry)

/-- RESERVOIR_SIMULATION_UNIT_TERMINOLOGY: unit-set name to a raw-unit to
friendly-unit mapping. -/
abbrev UnitTable := List (Str × List (Str × Str))

/-- The is_historical column of smry_meta: full vector code to boolean flag. -/
abbrev SmryMeta := List (Str × Bool)

/-- The dict key "description". -/
def kDescription : Str := "description".toList

/-- The dict key "type". -/
def kType : Str := "type".toList

/-- The type tag "region". -/
def sRegion : Str := "region".toList

/-- The literal ", " that simulation_vector_description puts before the
qualifier text. -/
def sCommaSpace : Str := ", ".toList

-- Basic lemmas about splitOnce and joinColon.

theorem splitOnce_fst_not_mem (sep : Char) (s : Str) : sep ∉ (splitOnce sep s).1 := by
  induction s with
  | nil => simp [splitOnce]
  | cons c cs ih =>
    by_cases h : c = sep
    · simp [splitOnce, h]
    · simp only [splitOnce, if_neg h, List.mem_cons]
      rintro (h1 | h2)
      · exact h h1.symm
      · exact ih h2

theorem splitOnce_of_not_mem (sep : Char) (s : Str) (h : sep ∉ s) :
    splitOnce sep s = (s, none) := by
  induction s with
  | nil => simp [splitOnce]
  | cons c cs ih =>
    simp only [List.mem_cons, not_or] at h
    rw [splitOnce, if_neg (fun hc => h.1 hc.symm), ih h.2]

theorem joinColon_splitOnce (s : Str) :
    joinColon (splitOnce ':' s).1 (splitOnce ':' s).2 = s := by
  induction s with
  | nil => simp [splitOnce, joinColon]
  | cons c cs ih =>
    by_cases h : c = ':'
    · simp [splitOnce, h, joinColon]
    · simp only [splitOnce, if_neg h]
      cases hr : (splitOnce ':' cs).2 with
      | none =>
        rw [hr] at ih
        simp only [joinColon] at ih ⊢
        rw [ih]
      | some rest =>
        rw [hr] at ih
        simp only [joinColon] at ih ⊢
        rw [List.cons_append, ih]

theorem splitOnce_joinColon (a : Str) (t : Option Str) (h : ':' ∉ a) :
    splitOnce ':' (joinColon a t) = (a, t) := by
  induction a with
  | nil =>
    cases t with
    | none => simp [joinColon, splitOnce]
    | some rest => simp [joinColon, splitOnce]
  | cons c cs ih =>
    simp only [List.mem_cons, not_or] at h
    have hc : ¬ c = ':' := fun hc => h.1 hc.symm
    have hjoin : joinColon (c :: cs) t = c :: joinColon cs t := by
      cases t <;> simp [joinColon]
    rw [hjoin, splitOnce, if_neg hc, ih h.2]

-- The four public operations of the module.

/-- Python simulation_unit_reformat(ecl_unit, unit_set): looks the unit set up
with a plain subscript (KeyError propagates) and the raw unit with .get, which
falls back to the raw unit itself. -/
def simulation_unit_reformat (unitTerm : UnitTable) (ecl_unit : Str)
    (unit_set : Str := "METRIC".toList) : Except Unit Str :=
  match dictGet unitTerm unit_set with
  | Except.error e => Except.error e
  | Except.ok units => Except.ok (dictGetD units ecl_unit ecl_unit)

/-- Python simulation_vector_base(vector):
vector.split(":", 1)[0].split("_", 1)[0]. -/
def simulation_vector_base (vector : Str) : Str :=
  (splitOnce '_' (splitOnce ':' vector).1).1

/-- The fixed-width region-vector reinterpretation step inside
simulation_vector_description: when vector_name is exactly 8 characters long,
the first 5 characters with trailing underscores stripped are a candidate base
name and the last 3 characters a candidate fip; the candidate is adopted only
when its table entry has type "region" (both KeyErrors of the try block are
caught and discard the fip).  Returns the resulting (vector_name, fip) pair. -/
def resolve_region (term : VectorTable) (vector_name : Str) : Str × Option Str :=
  if vector_name.length = 8 then
    let vector_base_name := rstripUnderscore (vector_name.take 5)
    let fip := vector_name.drop 5
    match dictGet term vector_base_name with
    | Except.ok entry =>
      match dictGet entry kType with
      | Except.ok ty => if ty = sRegion then (vector_base_name, some fip) else (vector_name, none)
      | Except.error _ => (vector_name, none)
    | Except.error _ => (vector_name, none)
  else
    (vector_name, none)

/-- Python simulation_vector_description(vector): split on the first colon,
apply the region reinterpretation, then look the resolved name up in the
table.  When found, the description field is read (a plain subscript) and the
node qualifier, when present, is appended as ", type fip node" or ", type
node" with underscores of the type rendered as spaces; when not found, the
resolved name itself is returned (the advisory warning side channel is not
modelled). -/
def simulation_vector_description (term : VectorTable) (vector : Str) : Except Unit Str :=
  match dictGet term (resolve_region term (splitOnce ':' vector).1).1 with
  | Except.error _ => Except.ok (resolve_region term (splitOnce ':' vector).1).1
  | Except.ok metadata =>
    match dictGet metadata kDescription with
    | Except.error e => Except.error e
    | Except.ok description =>
      match (splitOnce ':' vector).2 with
      | none => Except.ok description
      | some node =>
        match dictGet metadata kType with
        | Except.error e => Except.error e
        | Except.ok ty =>
          Except.ok (description ++ sCommaSpace ++ replaceUnderscoreBySpace ty ++ [' '] ++
            (match (resolve_region term (splitOnce ':' vector).1).2 with
             | some fip => fip ++ [' '] ++ node
             | none => node))

/-- The reverse mode of historical_vector (return_historical = False): with no
smry_meta the naming heuristic applies (base ends with "H" and starts with
"F", "G" or "W"); with smry_meta the is_historical flag is looked up (KeyError
caught as False) and on success parts[0][:-1] is returned without rejoining
the node qualifier.  In the source this branch is only ever reached with
smry_meta forced to None. -/
def historical_vector_reverse (vector : Str) (smry_meta : Option SmryMeta) : Option Str :=
  match smry_meta with
  | none =>
    if endsWithChar 'H' (splitOnce ':' vector).1 && startsFGW (splitOnce ':' vector).1 then
      some (joinColon (splitOnce ':' vector).1.dropLast (splitOnce ':' vector).2)
    else
      none
  | some meta =>
    let is_hist := dictGetD meta vector false
    if is_hist then some (splitOnce ':' vector).1.dropLast else none

/-- Python historical_vector(vector, smry_meta, return_historical).  The first
statement of the source overwrites smry_meta with None (temporary deactivation
noted in the source), which the shadowing let reproduces.  Forward mode
appends "H" to parts[0], rejoins, and returns the candidate exactly when the
recursive reverse-mode call confirms it. -/
def historical_vector (vector : Str) (smry_meta : Option SmryMeta := none)
    (return_historical : Bool := true) : Option Str :=
  let smry_meta : Option SmryMeta := none
  if return_historical then
    let hist_vec := joinColon ((splitOnce ':' vector).1 ++ ['H']) (splitOnce ':' vector).2
    match historical_vector_reverse hist_vec smry_meta with
    | none => none
    | some _ => some hist_vec
  else
    historical_vector_reverse vector smry_meta

/-- Every entry of a vector table has both a description and a type field
(well-formedness of the external reference data). -/
def wellFormedTable (term : VectorTable) : Bool :=
  term.all (fun p => isOkE (dictGet p.2 kDescription) && isOkE (dictGet p.2 kType))

theorem dropLast_append_single (a : Str) (c : Char) : (a ++ [c]).dropLast = a := by
  induction a with
  | nil => rfl
  | cons d ds ih =>
    rw [List.cons_append]
    cases hds : ds ++ [c] with
    | nil => exact absurd hds (by simp)
    | cons e es =>
      rw [← hds, List.dropLast_cons_of_ne_nil (by simp), ih]

instance {ε α : Type} [DecidableEq ε] [DecidableEq α] : DecidableEq (Except ε α) := fun x y =>
  match x, y with
  | Except.error e, Except.error f =>
    if h : e = f then Decidable.isTrue (by rw [h])
    else Decidable.isFalse (fun hc => h (by injection hc))
  | Except.error _, Except.ok _ => Decidable.isFalse (fun hc => Except.noConfusion hc)
  | Except.ok _, Except.error _ => Decidable.isFalse (fun hc => Except.noConfusion hc)
  | Except.ok a, Except.ok b =>
    if h : a = b then Decidable.isTrue (by rw [h])
    else Decidable.isFalse (fun hc => h (by injection hc))

-- Characterizations of historical_vector used by several theorems below.

theorem not_colon_mem_append_H (v : Str) : ':' ∉ (splitOnce ':' v).1 ++ ['H'] := by
  intro hmem
  rcases List.mem_append.mp hmem with h1 | h2
  · exact splitOnce_fst_not_mem ':' v h1
  · exact absurd h2 (by decide)

theorem reverse_none_joinColon (a : Str) (t : Option Str) (h : ':' ∉ a) :
    historical_vector_reverse (joinColon a t) none =
      (if endsWithChar 'H' a && startsFGW a then
        some (joinColon a.dropLast t)
      else none) := by
  show (if endsWithChar 'H' (splitOnce ':' (joinColon a t)).1 &&
          startsFGW (splitOnce ':' (joinColon a t)).1 then
        some (joinColon (splitOnce ':' (joinColon a t)).1.dropLast
          (splitOnce ':' (joinColon a t)).2)
      else none) = _
  rw [splitOnce_joinColon a t h]

theorem historical_vector_true_eq (v : Str) (m : Option SmryMeta) :
    historical_vector v m true =
      (if endsWithChar 'H' ((splitOnce ':' v).1 ++ ['H']) &&
          startsFGW ((splitOnce ':' v).1 ++ ['H']) then
        some (joinColon ((splitOnce ':' v).1 ++ ['H']) (splitOnce ':' v).2)
      else none) := by
  have hrev := reverse_none_joinColon ((splitOnce ':' v).1 ++ ['H']) (splitOnce ':' v).2
    (not_colon_mem_append_H v)
  show (match historical_vector_reverse
          (joinColon ((splitOnce ':' v).1 ++ ['H']) (splitOnce ':' v).2) none with
        | none => none
        | some _ => some (joinColon ((splitOnce ':' v).1 ++ ['H']) (splitOnce ':' v).2)) = _
  rw [hrev]
  cases hcond : (endsWithChar 'H' ((splitOnce ':' v).1 ++ ['H']) &&
      startsFGW ((splitOnce ':' v).1 ++ ['H'])) <;> simp [hcond]

/-- C2: forward mode of the historical guesser appends "H" to the part before
the first colon, preserves the node qualifier, and returns the candidate
exactly when the reverse-mode heuristic confirms it (candidate base ends with
"H" and starts with "F", "G" or "W"); concretely WOPR maps to WOPRH, WOPRH
maps back to WOPR, and BPR has no historical counterpart. -/
theorem c2_forward_guess :
    (∀ (v : Str) (m : Option SmryMeta),
      historical_vector v m true =
        (if endsWithChar 'H' ((splitOnce ':' v).1 ++ ['H']) &&
            startsFGW ((splitOnce ':' v).1 ++ ['H']) then
          some (joinColon ((splitOnce ':' v).1 ++ ['H']) (splitOnce ':' v).2)
        else none))
    ∧ historical_vector "WOPR".toList none true = some "WOPRH".toList
    ∧ historical_vector "WOPRH".toList none false = some "WOPR".toList
    ∧ historical_vector "BPR".toList none true = none :=
  ⟨historical_vector_true_eq, by decide, by decide, by decide⟩

/-- C3 counterexample: in reverse mode with a historical-flag table supplied
in which the vector is absent (so the claim demands an absent result), the
function still returns the heuristic answer, because the table argument is
overwritten with None at entry. -/
theorem c3_counterexample :
    historical_vector "WOPRH:OP_1".toList (some []) false = some "WOPR:OP_1".toList ∧
    dictGetD ([] : SmryMeta) "WOPRH:OP_1".toList false = false := by
  exact ⟨by decide, by decide⟩

/-- C3 amended: the historical-flag table argument is ignored (it is forced to
absent at entry), so reverse mode always applies the naming heuristic: the
base with its trailing "H" stripped and the node qualifier preserved is
returned exactly when the base ends with "H" and starts with "F", "G" or "W",
and otherwise the result is absent, whatever table is supplied. -/
theorem c3_reverse_heuristic_only (v : Str) (m : Option SmryMeta) :
    historical_vector v m false =
      (if endsWithChar 'H' (splitOnce ':' v).1 && startsFGW (splitOnce ':' v).1 then
        some (joinColon (splitOnce ':' v).1.dropLast (splitOnce ':' v).2)
      else none) := rfl

/-- C4: the historical-flag table argument has no effect on the result of
historical_vector for any vector and either direction flag, since the
argument is overwritten with None before any branch can read it. -/
theorem c4_meta_has_no_effect (v : Str) (m1 m2 : Option SmryMeta) (rh : Bool) :
    historical_vector v m1 rh = historical_vector v m2 rh := rfl

/-- C10: round trip of the historical guesser: whenever forward mode returns a
historical name, reverse mode on that name returns the original vector with
its node qualifier intact. -/
theorem c10_roundtrip (v : Str) (m : Option SmryMeta) (h : Str)
    (hf : historical_vector v m true = some h) :
    historical_vector h m false = some v := by
  rw [historical_vector_true_eq] at hf
  by_cases hcond : (endsWithChar 'H' ((splitOnce ':' v).1 ++ ['H']) &&
      startsFGW ((splitOnce ':' v).1 ++ ['H'])) = true
  · rw [if_pos hcond] at hf
    injection hf with hh
    subst hh
    show historical_vector_reverse
      (joinColon ((splitOnce ':' v).1 ++ ['H']) (splitOnce ':' v).2) none = some v
    rw [reverse_none_joinColon _ _ (not_colon_mem_append_H v), if_pos hcond,
      dropLast_append_single, joinColon_splitOnce]
  · rw [if_neg hcond] at hf
    exact absurd hf (by simp)

/-- Witness for C10 at a concrete vector with a node qualifier. -/
theorem c10_roundtrip_witness :
    historical_vector "WOPRH:OP1".toList none false = some "WOPR:OP1".toList :=
  c10_roundtrip "WOPR:OP1".toList none "WOPRH:OP1".toList (by decide)

/-- C1: the region reinterpretation for 8-character vector names: with the
first 5 characters, trailing underscores stripped, as candidate base name and
the last 3 characters as candidate fip, the candidate is adopted and the fip
kept exactly when the candidate base name has a table entry whose type is the
literal "region"; otherwise the fip is discarded and the original name kept;
names that are not 8 characters long never get a fip. -/
theorem c1_region_rule (term : VectorTable) (vn : Str) :
    (vn.length = 8 → ∀ (e : Entry) (ty : Str),
      dictGet term (rstripUnderscore (vn.take 5)) = Except.ok e →
      dictGet e kType = Except.ok ty → ty = sRegion →
      resolve_region term vn = (rstripUnderscore (vn.take 5), some (vn.drop 5)))
    ∧ (vn.length = 8 →
      (∀ e : Entry, dictGet term (rstripUnderscore (vn.take 5)) = Except.ok e →
        ∀ ty : Str, dictGet e kType = Except.ok ty → ty ≠ sRegion) →
      resolve_region term vn = (vn, none))
    ∧ (vn.length ≠ 8 → resolve_region term vn = (vn, none)) := by
  refine ⟨?_, ?_, ?_⟩
  · intro h8 e ty he hty hreg
    simp [resolve_region, h8, he, hty, hreg]
  · intro h8 hno
    rcases hbase : dictGet term (rstripUnderscore (vn.take 5)) with u | e
    · simp [resolve_region, h8, hbase]
    · rcases hty : dictGet e kType with u | ty
      · simp [resolve_region, h8, hbase, hty]
      · have hne : ty ≠ sRegion := hno e hbase ty hty
        simp [resolve_region, h8, hbase, hty, hne]
  · intro h8
    simp [resolve_region, h8]

/-- The table used by the witness of C1. -/
def c1Table : VectorTable := [("RPR".toList, [(kType, sRegion)])]

/-- Witness for C1: the fixed-width form RPR__REG resolves to base RPR with
fip REG when RPR is a region-type entry. -/
theorem c1_region_rule_witness :
    resolve_region c1Table "RPR__REG".toList = ("RPR".toList, some "REG".toList) :=
  (c1_region_rule c1Table "RPR__REG".toList).1 (by decide)
    [(kType, sRegion)] sRegion (by decide) (by decide) rfl

/-- The table used by the counterexample of C5: ROIP_REG is itself a key, but
its first five characters with underscores stripped, ROIP, are a region-type
key, so the description of ROIP is returned instead of the stored description
of ROIP_REG. -/
def c5Table : VectorTable :=
  [("ROIP".toList, [(kDescription, "X".toList), (kType, sRegion)]),
   ("ROIP_REG".toList, [(kDescription, "Y".toList), (kType, "misc".toList)])]

/-- C5 counterexample: a key of the table (ROIP_REG, 8 characters, stored
description "Y") for which simulation_vector_description returns the region
base description "X" instead of the stored description. -/
theorem c5_counterexample :
    dictGet c5Table "ROIP_REG".toList =
      Except.ok [(kDescription, "Y".toList), (kType, "misc".toList)] ∧
    dictGet [(kDescription, "Y".toList), (kType, "misc".toList)] kDescription =
      Except.ok "Y".toList ∧
    simulation_vector_description c5Table "ROIP_REG".toList = Except.ok "X".toList ∧
    "X".toList ≠ "Y".toList := by
  refine ⟨by decide, by decide, by decide, by decide⟩

/-- C5 amended: for every colon-free base name B that is a key of the table,
simulation_vector_description returns exactly the stored description of B,
with nothing appended, provided the region reinterpretation keeps B (which it
always does unless B is 8 characters long and its first-5-stripped prefix is a
region-type key, in which case the prefix entry description is returned
instead). -/
theorem c5_amended_description (term : VectorTable) (B : Str) (e : Entry) (d : Str)
    (hB : ':' ∉ B) (hkeep : (resolve_region term B).1 = B)
    (he : dictGet term B = Except.ok e)
    (hd : dictGet e kDescription = Except.ok d) :
    simulation_vector_description term B = Except.ok d := by
  have hsplit : splitOnce ':' B = (B, none) := splitOnce_of_not_mem ':' B hB
  simp [simulation_vector_description, hsplit, hkeep, he, hd]

/-- The table used by the witness of C5. -/
def c5wTable : VectorTable :=
  [("WOPR".toList, [(kDescription, "Oil Rate".toList), (kType, "well".toList)])]

/-- Witness for the amended C5 at the key WOPR. -/
theorem c5_amended_witness :
    simulation_vector_description c5wTable "WOPR".toList = Except.ok "Oil Rate".toList :=
  c5_amended_description c5wTable "WOPR".toList
    [(kDescription, "Oil Rate".toList), (kType, "well".toList)] "Oil Rate".toList
    (by decide) (by decide) (by decide) (by decide)

/-- C6: when the resolved vector name is found in the table and a node
qualifier is present, the description gets the suffix ", type fip node" when a
fip is present and ", type node" when it is absent, with every underscore of
the type string replaced by a space. -/
theorem c6_node_suffix (term : VectorTable) (v node : Str) (md : Entry) (d ty : Str)
    (hnode : (splitOnce ':' v).2 = some node)
    (hmd : dictGet term (resolve_region term (splitOnce ':' v).1).1 = Except.ok md)
    (hd : dictGet md kDescription = Except.ok d)
    (ht : dictGet md kType = Except.ok ty) :
    (∀ f : Str, (resolve_region term (splitOnce ':' v).1).2 = some f →
      simulation_vector_description term v =
        Except.ok (d ++ sCommaSpace ++ replaceUnderscoreBySpace ty ++ [' '] ++
          f ++ [' '] ++ node))
    ∧ ((resolve_region term (splitOnce ':' v).1).2 = none →
      simulation_vector_description term v =
        Except.ok (d ++ sCommaSpace ++ replaceUnderscoreBySpace ty ++ [' '] ++ node)) := by
  constructor
  · intro f hf
    simp [simulation_vector_description, hmd, hd, hnode, ht, hf, List.append_assoc]
  · intro hf
    simp [simulation_vector_description, hmd, hd, hnode, ht, hf]

/-- The table used by the witness of C6. -/
def c6Table : VectorTable :=
  [("ROIP".toList, [(kDescription, "Oil in place".toList), (kType, sRegion)])]

/-- Witness for C6: a region vector with a node qualifier gets the fip and the
node appended after the type. -/
theorem c6_node_suffix_witness :
    simulation_vector_description c6Table "ROIP_REG:1".toList =
      Except.ok "Oil in place, region REG 1".toList :=
  (c6_node_suffix c6Table "ROIP_REG:1".toList "1".toList
    [(kDescription, "Oil in place".toList), (kType, sRegion)]
    "Oil in place".toList sRegion (by decide) (by decide) (by decide) (by decide)).1
    "REG".toList (by decide)

/-- C7: simulation_unit_reformat returns the mapped friendly unit when the
unit set exists and contains the raw unit, the raw unit unchanged when the
unit set exists but does not contain it, and a key-lookup error when the unit
set itself is unknown. -/
theorem c7_unit_reformat (ut : UnitTable) (u s : Str) :
    (∀ (m : List (Str × Str)) (fv : Str), dictGet ut s = Except.ok m →
      dictGet m u = Except.ok fv →
      simulation_unit_reformat ut u s = Except.ok fv)
    ∧ (∀ m : List (Str × Str), dictGet ut s = Except.ok m →
      dictGet m u = Except.error () →
      simulation_unit_reformat ut u s = Except.ok u)
    ∧ (dictGet ut s = Except.error () →
      simulation_unit_reformat ut u s = Except.error ()) := by
  refine ⟨?_, ?_, ?_⟩
  · intro m fv hm hv
    simp [simulation_unit_reformat, hm, dictGetD, hv]
  · intro m hm hu
    simp [simulation_unit_reformat, hm, dictGetD, hu]
  · intro hm
    simp [simulation_unit_reformat, hm]

/-- The table used by the witness of C7. -/
def c7Table : UnitTable := [("METRIC".toList, [("SM3".toList, "Sm3".toList)])]

/-- Witness for C7: a raw unit present in the METRIC set is mapped to its
friendly form. -/
theorem c7_unit_reformat_witness :
    simulation_unit_reformat c7Table "SM3".toList "METRIC".toList =
      Except.ok "Sm3".toList :=
  (c7_unit_reformat c7Table "SM3".toList "METRIC".toList).1
    [("SM3".toList, "Sm3".toList)] "Sm3".toList (by decide) (by decide)

/-- C8: simulation_vector_base takes the part before the first colon and then
the part before the first underscore of that, never failing; WOPR:OP_1 gives
WOPR, ROIP_REG:1 gives ROIP, and a string with neither colon nor underscore is
returned unchanged. -/
theorem c8_vector_base :
    simulation_vector_base "WOPR:OP_1".toList = "WOPR".toList
    ∧ simulation_vector_base "ROIP_REG:1".toList = "ROIP".toList
    ∧ ∀ v : Str, ':' ∉ v → '_' ∉ v → simulation_vector_base v = v := by
  refine ⟨by decide, by decide, ?_⟩
  intro v h1 h2
  simp [simulation_vector_base, splitOnce_of_not_mem ':' v h1,
    splitOnce_of_not_mem '_' v h2]

/-- Witness for C8 at a string with no colon and no underscore. -/
theorem c8_vector_base_witness :
    simulation_vector_base "NOQUALIFIER".toList = "NOQUALIFIER".toList :=
  c8_vector_base.2.2 "NOQUALIFIER".toList (by decide) (by decide)

theorem dictGet_wellFormed (term : VectorTable) (k : Str) (e : Entry)
    (hwf : wellFormedTable term = true) (h : dictGet term k = Except.ok e) :
    isOkE (dictGet e kDescription) = true ∧ isOkE (dictGet e kType) = true := by
  induction term with
  | nil => simp [dictGet] at h
  | cons p rest ih =>
    obtain ⟨k0, e0⟩ := p
    simp only [wellFormedTable, List.all_cons, Bool.and_eq_true] at hwf
    rw [dictGet] at h
    by_cases hk : k0 = k
    · rw [if_pos hk] at h
      injection h with h
      subst h
      exact hwf.1
    · rw [if_neg hk] at h
      exact ih hwf.2 h

/-- C9: over arbitrary input strings, simulation_vector_description always
produces a string (never an error) as long as every table entry carries both a
description and a type field, and historical_vector always returns either a
string or an explicit absent value. -/
theorem c9_totality :
    (∀ (term : VectorTable) (v : Str), wellFormedTable term = true →
      ∃ s, simulation_vector_description term v = Except.ok s)
    ∧ (∀ (v : Str) (m : Option SmryMeta) (rh : Bool),
      historical_vector v m rh = none ∨ ∃ s, historical_vector v m rh = some s) := by
  constructor
  · intro term v hwf
    rcases hmd : dictGet term (resolve_region term (splitOnce ':' v).1).1 with u | md
    · exact ⟨(resolve_region term (splitOnce ':' v).1).1,
        by simp [simulation_vector_description, hmd]⟩
    · obtain ⟨hdok, htok⟩ := dictGet_wellFormed term _ md hwf hmd
      rcases hdd : dictGet md kDescription with u | d
      · rw [hdd] at hdok
        simp [isOkE] at hdok
      · rcases hnode : (splitOnce ':' v).2 with _ | node
        · exact ⟨d, by simp [simulation_vector_description, hmd, hdd, hnode]⟩
        · rcases htt : dictGet md kType with u | ty
          · rw [htt] at htok
            simp [isOkE] at htok
          · rcases hfip : (resolve_region term (splitOnce ':' v).1).2 with _ | f
            · exact ⟨d ++ sCommaSpace ++ replaceUnderscoreBySpace ty ++ [' '] ++ node,
                by simp [simulation_vector_description, hmd, hdd, hnode, htt, hfip]⟩
            · exact ⟨d ++ sCommaSpace ++ replaceUnderscoreBySpace ty ++ [' '] ++
                  f ++ [' '] ++ node,
                by simp [simulation_vector_description, hmd, hdd, hnode, htt, hfip,
                  List.append_assoc]⟩
  · intro v m rh
    rcases hr : historical_vector v m rh with _ | s
    · exact Or.inl rfl
    · exact Or.inr ⟨s, rfl⟩

/-- The table used by the witness of C9. -/
def c9Table : VectorTable :=
  [("FOPT".toList, [(kDescription, "Oil total".toList), (kType, "field".toList)])]

/-- Witness for C9 on a well-formed table and a concrete vector. -/
theorem c9_totality_witness :
    ∃ s, simulation_vector_description c9Table "FOPT".toList = Except.ok s :=
  c9_totality.1 c9Table "FOPT".toList (by decide)
